import Mathlib

/-!
Verification of the process-graph construction and flattening engine of the
openeo-python-client repository (files `openeo/internal/graphbuilder.py` and
`openeo/util.py`), against its natural-language specification.

The Python code is shallowly embedded: dictionaries holding process nodes
become inductive types, in-place mutation becomes explicit state passing,
and code paths that raise exceptions return `Except`.  The generic traversal
(`openeo/internal/process_graph_visitor.py`) is not part of the sources at
hand; its hook contract is modelled from the specification (see
`flattenNode` below).
-/

/-! ## Literal values

Argument values that the graph builder treats as opaque (strings, numbers,
booleans, None).  The code never inspects these; they pass through every
operation unchanged. -/

inductive Lit where
  | str (s : String)
  | int (n : Int)
  | bool (b : Bool)
  | null
deriving DecidableEq

/-! ## FlatGraphKeyGenerator  (graphbuilder.py lines 6-18) -/

/-- Embedding of `process_id.replace('_', '')` (graphbuilder.py line 18).
For the one-character pattern `'_'` Python's `str.replace` with an empty
replacement deletes every underscore, i.e. it filters the characters. -/
def stripUnderscores (s : String) : String :=
  ⟨s.data.filter (fun c => c ≠ '_')⟩

/-- State of a `FlatGraphKeyGenerator`: the `_counters` defaultdict(int),
mapping a process id to its per-id counter (absent key = 0). -/
structure KeyGen where
  counters : List (String × Nat)
deriving DecidableEq

/-- `defaultdict(int)` read: the counter of `p`, `0` when absent. -/
def cget : List (String × Nat) → String → Nat
  | [], _ => 0
  | (k, v) :: rest, p => if k = p then v else cget rest p

/-- `defaultdict(int)` write: store counter `n` for `p`. -/
def cset : List (String × Nat) → String → Nat → List (String × Nat)
  | [], p, n => [(p, n)]
  | (k, v) :: rest, p, n =>
      if k = p then (k, n) :: rest else (k, v) :: cset rest p n

/-- `FlatGraphKeyGenerator.generate` (graphbuilder.py lines 15-18):
increment the per-process-id counter and return
`process_id.replace('_','') + str(counter)`. -/
def KeyGen.generate (g : KeyGen) (process_id : String) : String × KeyGen :=
  let c := cget g.counters process_id + 1
  (stripUnderscores process_id ++ toString c, ⟨cset g.counters process_id c⟩)

/-- Run a sequence of `generate` calls, returning the final generator state. -/
def genGen : KeyGen → List String → KeyGen
  | g, [] => g
  | g, p :: ps => genGen (g.generate p).2 ps

/-- Run a sequence of `generate` calls, returning the list of returned keys. -/
def genKeys : KeyGen → List String → List String
  | _, [] => []
  | g, p :: ps => (g.generate p).1 :: genKeys (g.generate p).2 ps

/-! ## Decimal-representation helpers

Used to reason about the `str(counter)` suffix of generated keys
(`Nat.repr` in the embedding).  `decDigits` is a fuel-free reformulation of
core's `Nat.toDigitsCore`, `parseDigits` inverts it. -/

/-- Numeric value of a decimal digit character. -/
def digitVal (c : Char) : Nat := c.toNat - '0'.toNat

/-- The decimal digit string of `n`, most significant digit first. -/
def decDigits (n : Nat) : List Char :=
  if _h : n < 10 then [Nat.digitChar n]
  else decDigits (n / 10) ++ [Nat.digitChar (n % 10)]
decreasing_by exact Nat.div_lt_self (by omega) (by omega)

/-- Parse a decimal digit string back into a number. -/
def parseDigits (l : List Char) : Nat :=
  l.foldl (fun a c => 10 * a + digitVal c) 0

/-! ## Graph shapes

Nested (embed-by-value) form, as built by `GraphBuilder` and consumed by
`flatten`, and flat (key-indexed) form, as produced by `flatten`.  Python
represents both with plain dicts; here each duck-typed dict shape becomes a
constructor:
  * an argument value that is a dict containing `'from_node'` is a node
    reference (embedding a node before flattening, a key string after);
  * a dict containing `'callback'` holds a nested sub-graph;
  * a list argument holds elements that are constants or node references;
  * everything else is an opaque literal.
Mutual cons-style lists are used so that all recursion is structural. -/

mutual

inductive NNode where
  | mk (process_id : String) (arguments : NArgs) (result : Option Lit)

inductive NArgs where
  | nil
  | cons (name : String) (value : NArg) (rest : NArgs)

inductive NArg where
  | lit (v : Lit)
  | fromNode (n : NNode)
  | callback (n : NNode)
  | arr (xs : NElems)

inductive NElems where
  | nil
  | cons (e : NElem) (rest : NElems)

inductive NElem where
  | lit (v : Lit)
  | fromNode (n : NNode)

end

mutual

inductive FGraph where
  | nil
  | cons (key : String) (node : FNode) (rest : FGraph)

inductive FNode where
  | mk (process_id : String) (arguments : FArgs) (result : Bool)

inductive FArgs where
  | nil
  | cons (name : String) (value : FArg) (rest : FArgs)

inductive FArg where
  | lit (v : Lit)
  | ref (key : String)
  | callback (g : FGraph)
  | arr (xs : FElems)

inductive FElems where
  | nil
  | cons (e : FElem) (rest : FElems)

inductive FElem where
  | lit (v : Lit)
  | ref (key : String)

end

/-- Process id of a nested node. -/
def NNode.pid : NNode → String
  | .mk p _ _ => p

/-- Arguments of a nested node. -/
def NNode.args : NNode → NArgs
  | .mk _ a _ => a

/-- The `'result'` entry of a nested node's dict (`none` = entry absent). -/
def NNode.resultEntry : NNode → Option Lit
  | .mk _ _ r => r

/-- The keys of a flat graph, in insertion order. -/
def FGraph.keys : FGraph → List String
  | .nil => []
  | .cons k _ rest => k :: rest.keys

/-- Whether a flat graph contains an entry with key `k`. -/
def FGraph.containsKey : FGraph → String → Bool
  | .nil, _ => false
  | .cons k' _ rest, k => k' == k || rest.containsKey k

/-- The `'result'` marker of a flat node. -/
def FNode.resultFlag : FNode → Bool
  | .mk _ _ r => r

/-- Python dict assignment `flat_graph[k] = v`: overwrite the entry if the
key is present (keeping its position, as Python dicts do), append otherwise. -/
def FGraph.upsert : FGraph → String → FNode → FGraph
  | .nil, k, v => .cons k v .nil
  | .cons k' v' rest, k, v =>
      if k' = k then .cons k' v rest else .cons k' v' (rest.upsert k v)

/-- `flat_graph[k]['result'] = True` (graphbuilder.py line 161): set the
result marker on the entry stored under `k`. -/
def FGraph.setResultAt : FGraph → String → FGraph
  | .nil, _ => .nil
  | .cons k' (.mk p a r) rest, k =>
      if k' = k then .cons k' (.mk p a true) rest
      else .cons k' (.mk p a r) (rest.setResultAt k)

/-- Keys of the entries whose result marker is set. -/
def FGraph.resultKeys : FGraph → List String
  | .nil => []
  | .cons k n rest =>
      if n.resultFlag then k :: rest.resultKeys else rest.resultKeys

/-! ## Flattener  (graphbuilder.py lines 125-162)

The traversal driving the three hooks lives in
`openeo/internal/process_graph_visitor.py`, which is not among the sources.
Modelled from the spec: a depth-first post-order walk of the nested tree
that visits a node's arguments in declared order (descending into the node
embedded in a node reference), fires `arrayElementDone` after each element
of a list argument, `leaveArgument` after each non-list argument value, and
`leaveProcess` once all of a node's arguments have been visited; the walk
does not descend into callback sub-graphs.  The three hooks themselves are
embedded from the source (graphbuilder.py lines 137-156); the mutable
`flat_graph` / `last_node_id` / generator state they share becomes the
explicit state `FState` threaded through the walk. -/

structure FState where
  gen : KeyGen
  flat : FGraph
  last : Option String

mutual

/-- Walk one nested node: visit its arguments, then fire `leaveProcess`
(graphbuilder.py lines 137-144): generate a key for the process id, store
`process_id` + rewritten arguments (without result marker) under that key,
and record the key as `last_node_id`. -/
def flattenNode : NNode → FState → FState
  | .mk process_id args _res, st =>
      let p := flattenArgs args st
      let kg := p.2.gen.generate process_id
      { gen := kg.2,
        flat := p.2.flat.upsert kg.1 (.mk process_id p.1 false),
        last := some kg.1 }

/-- Visit the argument list of a node, in declared order. -/
def flattenArgs : NArgs → FState → FArgs × FState
  | .nil, st => (.nil, st)
  | .cons name v rest, st =>
      let p := flattenArg v st
      let q := flattenArgs rest p.2
      (.cons name p.1 q.1, q.2)

/-- Visit one non-list argument value, then fire `leaveArgument`
(graphbuilder.py lines 150-156): a node reference gets its `'from_node'`
slot overwritten with `last_node_id` (the key of the just-visited embedded
node); a callback dict gets its `'callback'` slot replaced by the flat
form of the sub-graph, produced by a recursive flatten that shares the key
generator but uses a fresh flat map and a fresh `last_node_id`
(graphbuilder.py line 155). -/
def flattenArg : NArg → FState → FArg × FState
  | .lit v, st => (.lit v, st)
  | .fromNode n, st =>
      let st' := flattenNode n st
      (.ref (st'.last.getD ""), st')
  | .callback cn, st =>
      let st' := flattenNode cn { gen := st.gen, flat := .nil, last := none }
      let inner :=
        match st'.last with
        | some k => st'.flat.setResultAt k
        | none => st'.flat
      (.callback inner, { st with gen := st'.gen })
  | .arr xs, st =>
      let p := flattenElems xs st
      (.arr p.1, p.2)

/-- Visit the elements of a list argument, in order; after each node
reference fire `arrayElementDone` (graphbuilder.py lines 146-148), which
overwrites its `'from_node'` slot with `last_node_id`. -/
def flattenElems : NElems → FState → FElems × FState
  | .nil, st => (.nil, st)
  | .cons (.lit v) rest, st =>
      let p := flattenElems rest st
      (.cons (.lit v) p.1, p.2)
  | .cons (.fromNode n) rest, st =>
      let st' := flattenNode n st
      let p := flattenElems rest st'
      (.cons (.ref (st'.last.getD "")) p.1, p.2)

end

/-- One full flatten run over a nested root with a given generator state:
drive the walk, then mark the last-visited node as the result
(graphbuilder.py lines 158-161).  Returns the flat graph and the final
generator state.  (`last` is always set after the walk, since the walk ends
with `leaveProcess` on the root; the `none` branch is unreachable.) -/
def flattenGraph (root : NNode) (kg : KeyGen) : FGraph × KeyGen :=
  let st := flattenNode root { gen := kg, flat := .nil, last := none }
  match st.last with
  | some k => (st.flat.setResultAt k, st.gen)
  | none => (st.flat, st.gen)

/-- The key of the last node visited by a flatten run (the outermost root). -/
def flattenLast (root : NNode) (kg : KeyGen) : String :=
  (flattenNode root { gen := kg, flat := .nil, last := none }).last.getD ""

/-! ## GraphBuilder  (graphbuilder.py lines 21-123)

A builder holds `result_node`, the root of the nested graph built so far.
`GraphBuilder()` leaves the attribute unset (the `else` case of `__init__`,
see the TODO at graphbuilder.py line 36), modelled as `none`; code paths
that read the unset attribute raise `AttributeError`, modelled as
`Except.error`. -/

structure GraphBuilder where
  result_node : Option NNode

/-- Name lookup in a nested argument mapping. -/
def NArgs.hasName : NArgs → String → Bool
  | .nil, _ => false
  | .cons n _ rest, name => n == name || rest.hasName name

/-- Overwrite the value stored under `name` (Python dict item assignment;
argument names are unique in a dict, so only the first hit is rewritten). -/
def NArgs.setName : NArgs → String → NArg → NArgs
  | .nil, _, _ => .nil
  | .cons n v rest, name, v' =>
      if n = name then .cons n v' rest else .cons n v (rest.setName name v')

/-- `GraphBuilder.process` (graphbuilder.py lines 60-75): build the new
node; if the argument mapping has a top-level `'from_node'` entry, overwrite
it with the current `result_node` (embedding the old root; `AttributeError`
when no process was added yet); make the new node the root.  (The Python
method then does `return id`, returning the builtin function `id` instead
of an identifier — see `processReturnValue` in the merge section below.) -/
def GraphBuilder.process (b : GraphBuilder) (process_id : String)
    (args : NArgs) : Except String GraphBuilder :=
  if args.hasName "from_node" then
    match b.result_node with
    | some r =>
        .ok ⟨some (.mk process_id (args.setName "from_node" (.fromNode r)) none)⟩
    | none => .error "AttributeError: result_node"
  else
    .ok ⟨some (.mk process_id args none)⟩

/-- Set the `'result'` entry of the root node
(`self.result_node["result"] = result`, graphbuilder.py line 57). -/
def GraphBuilder.setRootResult (b : GraphBuilder) (r : Lit) : GraphBuilder :=
  match b.result_node with
  | some (.mk p a _) => ⟨some (.mk p a (some r))⟩
  | none => b

/-- `GraphBuilder.add_process` (graphbuilder.py lines 54-58): `process`,
then write the `'result'` entry of the new root when `result is not None`. -/
def GraphBuilder.add_process (b : GraphBuilder) (process_id : String)
    (result : Option Lit) (args : NArgs) : Except String GraphBuilder :=
  (b.process process_id args).map (fun b' =>
    match result with
    | some r => b'.setRootResult r
    | none => b')

/-- `GraphBuilder.shallow_copy` (graphbuilder.py lines 38-45): a new builder
whose `result_node` is a deep copy of this builder's (`AttributeError` when
unset).  Deep copy of a pure tree value is the value itself. -/
def GraphBuilder.shallow_copy (b : GraphBuilder) : Except String GraphBuilder :=
  match b.result_node with
  | some r => .ok ⟨some r⟩
  | none => .error "AttributeError: result_node"

/-- `GraphBuilder.combine` (graphbuilder.py lines 113-123): a fresh builder
holding a single node `operator` whose argument `arg_name` is the ordered
pair of references embedding the two input builders' roots, marked as
result. -/
def GraphBuilder.combine (operator : String) (first second : GraphBuilder)
    (arg_name : String) : Except String GraphBuilder :=
  match first.result_node, second.result_node with
  | some a, some b =>
      GraphBuilder.add_process ⟨none⟩ operator (some (.bool true))
        (.cons arg_name
          (.arr (.cons (.fromNode a) (.cons (.fromNode b) .nil))) .nil)
  | _, _ => .error "AttributeError: result_node"

/-- `GraphBuilder.flatten` (graphbuilder.py lines 125-162): deep-copy the
retained root (deep copy of a pure value is the value; the traversal then
mutates only that copy, graphbuilder.py lines 159-160), run the flattener,
mark the last node as result.  Returns the flat graph together with the
builder's state after the call — which is the builder unchanged, because
every mutation hits the copy. -/
def GraphBuilder.flatten (b : GraphBuilder) (kg : KeyGen) :
    Except String (FGraph × GraphBuilder) :=
  match b.result_node with
  | some root => .ok ((flattenGraph root kg).1, b)
  | none => .error "AttributeError: result_node"

/-! ## Merge  (graphbuilder.py lines 77-111)

`_merge_processes` folds a flat graph into a builder.  The argument values
of merged nodes mix shapes: literals, reference dicts whose `'from_node'`
slot holds a key string or — after the rewrite pass — the value returned by
`process`, chained embedded nodes, lists, and callback dicts passed through
untouched.  A separate mutual family models them.

Aliasing note: in Python the rewrite loop (graphbuilder.py lines 90-93)
mutates the very dict objects collected during the first loop, which stay
embedded in the chained `result_node` structure; and the key map is fully
determined before any rewrite (it depends only on the iteration keys).  The
embedding therefore computes the key map first and applies the per-node
rewrite while chaining, which yields exactly the final object state: the
rewrite never crosses a node boundary (references are collected only from a
node's own top-level argument dicts and one level into its lists,
graphbuilder.py lines 100-111), and a chained embedded node exhibits its
own rewrites through the shared reference. -/

/-- The target of a `'from_node'` slot in merged arguments: a key string,
or the builtin function `id` that `GraphBuilder.process` returns
(graphbuilder.py line 75). -/
inductive RefTarget where
  | key (s : String)
  | builtinId

mutual

inductive MNode where
  | mk (process_id : String) (arguments : MArgs)

inductive MArgs where
  | nil
  | cons (name : String) (value : MVal) (rest : MArgs)

inductive MVal where
  | lit (v : Lit)
  | refDict (target : RefTarget)
  | node (n : MNode)
  | callback (g : FGraph)
  | arr (xs : MElems)

inductive MElems where
  | nil
  | cons (e : MElem) (rest : MElems)

inductive MElem where
  | lit (v : Lit)
  | refDict (target : RefTarget)

end

/-- The value `GraphBuilder.process` returns: the Python builtin function
`id` itself (`return id`, graphbuilder.py line 75, where no local `id` is
in scope), not an identifier of the new node. -/
def processReturnValue : RefTarget := .builtinId

/-- Python `==` between the value returned by `process` and an original key
string: a builtin function never equals a string. -/
def refTargetEqStr : RefTarget → String → Bool
  | .key s, t => s == t
  | .builtinId, _ => false

/-- Convert flat list elements into the merged-argument world. -/
def convertFElems : FElems → MElems
  | .nil => .nil
  | .cons (.lit v) rest => .cons (.lit v) (convertFElems rest)
  | .cons (.ref k) rest => .cons (.refDict (.key k)) (convertFElems rest)

/-- Convert a flat argument value into the merged-argument world
(`copy.deepcopy(args)`, graphbuilder.py line 84). -/
def convertFArg : FArg → MVal
  | .lit v => .lit v
  | .ref k => .refDict (.key k)
  | .callback g => .callback g
  | .arr xs => .arr (convertFElems xs)

/-- Convert a flat argument mapping into the merged-argument world. -/
def convertFArgs : FArgs → MArgs
  | .nil => .nil
  | .cons name v rest => .cons name (convertFArg v) (convertFArgs rest)

/-- Name membership in a merged argument mapping. -/
def MArgs.hasName : MArgs → String → Bool
  | .nil, _ => false
  | .cons n _ rest, name => n == name || rest.hasName name

/-- Overwrite the value stored under `name`. -/
def MArgs.setName : MArgs → String → MVal → MArgs
  | .nil, _, _ => .nil
  | .cons n v rest, name, v' =>
      if n = name then .cons n v' rest else .cons n v (rest.setName name v')

/-- Name lookup in a merged argument mapping. -/
def MArgs.lookup : MArgs → String → Option MVal
  | .nil, _ => none
  | .cons n v rest, name => if n = name then some v else rest.lookup name

/-- Key lookup in the original-key map. -/
def kmLookup : List (String × RefTarget) → String → Option RefTarget
  | [], _ => none
  | (k, v) :: rest, s => if k = s then some v else kmLookup rest s

/-- The rewrite applied to one collected node reference (graphbuilder.py
lines 90-93): when the `'from_node'` value is a key present in the key map,
overwrite the slot with the mapped value; otherwise leave it untouched.
(A slot already holding the `process` return value is not a key and is
never in the map.) -/
def rewriteTarget (km : List (String × RefTarget)) : RefTarget → RefTarget
  | .key s =>
      match kmLookup km s with
      | some v => v
      | none => .key s
  | .builtinId => .builtinId

/-- Rewrite pass over the node references collected from one merged node's
arguments: dict-shaped argument values containing `'from_node'`, and
dict-shaped list elements containing `'from_node'`
(`_extract_node_references`, graphbuilder.py lines 100-111).  Chained
embedded nodes and callback dicts contain no top-level `'from_node'` key
and are not collected. -/
def rewriteMElems (km : List (String × RefTarget)) : MElems → MElems
  | .nil => .nil
  | .cons (.lit v) rest => .cons (.lit v) (rewriteMElems km rest)
  | .cons (.refDict t) rest =>
      .cons (.refDict (rewriteTarget km t)) (rewriteMElems km rest)

/-- Rewrite pass over a merged node's argument mapping (see
`rewriteMElems`). -/
def rewriteMArgs (km : List (String × RefTarget)) : MArgs → MArgs
  | .nil => .nil
  | .cons name (.refDict t) rest =>
      .cons name (.refDict (rewriteTarget km t)) (rewriteMArgs km rest)
  | .cons name (.arr xs) rest =>
      .cons name (.arr (rewriteMElems km xs)) (rewriteMArgs km rest)
  | .cons name v rest => .cons name v (rewriteMArgs km rest)

/-- Flat graph as a key/node association list. -/
def FGraph.toKV : FGraph → List (String × FNode)
  | .nil => []
  | .cons k n rest => (k, n) :: rest.toKV

/-- Python's `<` on strings: lexicographic comparison of code points. -/
def charListLt : List Char → List Char → Bool
  | [], [] => false
  | [], _ :: _ => true
  | _ :: _, [] => false
  | a :: as, b :: bs =>
      if a.toNat < b.toNat then true
      else if b.toNat < a.toNat then false
      else charListLt as bs

/-- See `charListLt`. -/
def strLt (a b : String) : Bool := charListLt a.data b.data

/-- Insert into a key-sorted list (used to model
`sorted(processes.items())`; Python sorts the `(key, node)` tuples, and
keys — unique in a dict — decide the order). -/
def insertSorted (p : String × FNode) : List (String × FNode) →
    List (String × FNode)
  | [] => [p]
  | q :: rest =>
      if strLt p.1 q.1 then p :: q :: rest else q :: insertSorted p rest

/-- `sorted(processes.items())` (graphbuilder.py line 81). -/
def sortKV : List (String × FNode) → List (String × FNode)
  | [] => []
  | p :: rest => insertSorted p (sortKV rest)

/-- The key map built by the first merge loop (graphbuilder.py lines
81-88): iterate the sorted items; `process` returns the builtin `id`
function, which is unequal to every key string, so every original key is
recorded, mapped to that function value. -/
def keyMapOf : List (String × FNode) → List (String × RefTarget)
  | [] => []
  | (k, _) :: rest =>
      if refTargetEqStr processReturnValue k then keyMapOf rest
      else (k, processReturnValue) :: keyMapOf rest

/-- Arguments of a flat node. -/
def FNode.fargs : FNode → FArgs
  | .mk _ a _ => a

/-- Process id of a flat node. -/
def FNode.fpid : FNode → String
  | .mk p _ _ => p

/-- The merge loop body for one sorted item, given the already-computed key
map and the previous root: deep-copy and convert the arguments, let
`process` overwrite a top-level `'from_node'` entry with the previous root
(`AttributeError` when there is none yet), then apply the reference rewrite
pass to this node's collected references. -/
def mergeOne (km : List (String × RefTarget)) (prev : Option MNode)
    (item : String × FNode) : Except String MNode :=
  let args0 := convertFArgs item.2.fargs
  if args0.hasName "from_node" then
    match prev with
    | some p => .ok (.mk item.2.fpid (rewriteMArgs km (args0.setName "from_node" (.node p))))
    | none => .error "AttributeError: result_node"
  else
    .ok (.mk item.2.fpid (rewriteMArgs km args0))

/-- Iterate the merge loop over the sorted items, chaining roots. -/
def mergeLoop (km : List (String × RefTarget)) :
    Option MNode → List (String × FNode) → Except String (Option MNode)
  | prev, [] => .ok prev
  | prev, item :: rest => do
      let n ← mergeOne km prev item
      mergeLoop km (some n) rest

/-- `GraphBuilder._merge_processes` (graphbuilder.py lines 77-98) on a flat
graph, starting from a builder whose root is `prev`: returns the final root
and the key map (`return_key_map=True` view). -/
def mergeProcesses (prev : Option MNode) (g : FGraph) :
    Except String (Option MNode × List (String × RefTarget)) :=
  let kv := sortKV g.toKV
  let km := keyMapOf kv
  (mergeLoop km prev kv).map (fun root => (root, km))

/-! ## deep_get  (util.py lines 153-182) -/

/-- A lookup-path step: a dict key (string or int) or a sequence index. -/
inductive DKey where
  | s (k : String)
  | i (n : Int)
deriving DecidableEq

/-- Nested Python data as handled by `deep_get`: dicts, lists/tuples and
opaque scalars. -/
inductive DVal where
  | str (s : String)
  | int (n : Int)
  | bool (b : Bool)
  | null
  | list (xs : List DVal)
  | dict (entries : List (DKey × DVal))

/-- `DeepKeyError(key, keys)` (util.py lines 153-155): the failing step and
the full requested path. -/
structure DeepKeyError where
  key : DKey
  keys : List DKey

/-- Dict lookup `data[key]` guarded by `key in data`. -/
def dictFind : List (DKey × DVal) → DKey → Option DVal
  | [], _ => none
  | (k', v) :: rest, k => if k' = k then some v else dictFind rest k

/-- Sequence indexing guarded by `isinstance(key, int) and 0 <= key <
len(data)` (util.py line 175). -/
def listGet (xs : List DVal) (i : Int) : Option DVal :=
  if 0 ≤ i ∧ i < (xs.length : Int) then xs.get? i.toNat else none

/-- One traversal step of `deep_get` (util.py lines 173-177): a dict
containing the key, or a list/tuple indexed by an in-range int; anything
else is a miss. -/
def dstep : DVal → DKey → Option DVal
  | .dict es, k => dictFind es k
  | .list xs, .i n => listGet xs n
  | _, _ => none

/-- The loop of `deep_get` (util.py lines 172-182); `orig` is the full
path, used to build the error; `dflt` is `none` when no default was
supplied (the sentinel case) and `some f` otherwise. -/
def deepGetAux (orig : List DKey) (dflt : Option DVal) :
    DVal → List DKey → Except DeepKeyError DVal
  | data, [] => .ok data
  | data, k :: rest =>
      match dstep data k with
      | some v => deepGetAux orig dflt v rest
      | none =>
          match dflt with
          | none => .error ⟨k, orig⟩
          | some f => .ok f

/-- `deep_get(data, *keys, default=...)` (util.py lines 162-182). -/
def deep_get (data : DVal) (keys : List DKey) (dflt : Option DVal) :
    Except DeepKeyError DVal :=
  deepGetAux keys dflt data keys

/-- Modelled from the claim's words (the specification side of C9): follow
the path; a step is present only when the current value is a dict
containing the key, or a list/tuple indexed by an int `i` with
`0 <= i < length` (a negative index counts as absent). -/
def stepSpec : DVal → DKey → Option DVal
  | .dict es, k => dictFind es k
  | .list xs, .i n =>
      if 0 ≤ n ∧ n < (xs.length : Int) then xs.get? n.toNat else none
  | _, _ => none

/-- Specification-side path resolution for C9 (see `stepSpec`). -/
def resolveSpec : DVal → List DKey → Option DVal
  | d, [] => some d
  | d, k :: rest =>
      match stepSpec d k with
      | some v => resolveSpec v rest
      | none => none

/-! ## Auxiliary predicates used by the theorems -/

/-- Every entry of the flat graph has its result marker unset. -/
def FGraph.allFalse : FGraph → Prop
  | .nil => True
  | .cons _ n rest => n.resultFlag = false ∧ rest.allFalse

/-- Traversal-state invariant: no result marker set yet, and
`last_node_id` (when set) names an entry of the map. -/
def FState.Good (st : FState) : Prop :=
  st.flat.allFalse ∧ (∀ k, st.last = some k → k ∈ st.flat.keys)

mutual

/-- A nested argument mapping containing only opaque literals and lists of
opaque literals: the argument shape of a single-node graph. -/
def NArgs.litOnly : NArgs → Bool
  | .nil => true
  | .cons _ v rest => v.litOnlyArg && rest.litOnly

/-- See `NArgs.litOnly`. -/
def NArg.litOnlyArg : NArg → Bool
  | .lit _ => true
  | .fromNode _ => false
  | .callback _ => false
  | .arr xs => xs.litOnlyElems

/-- See `NArgs.litOnly`. -/
def NElems.litOnlyElems : NElems → Bool
  | .nil => true
  | .cons (.lit _) rest => rest.litOnlyElems
  | .cons (.fromNode _) _ => false

end

/-- A nested graph consisting of a single node (no embedded nodes, no
callbacks). -/
def NNode.singleNode : NNode → Bool
  | .mk _ args _ => args.litOnly

/-- See `fargsOfLit`. -/
def felemsOfLit : NElems → FElems
  | .nil => .nil
  | .cons (.lit v) rest => .cons (.lit v) (felemsOfLit rest)
  | .cons (.fromNode _) rest => .cons (.lit .null) (felemsOfLit rest)

/-- See `fargsOfLit` (the default branch is never reached on literal-only
arguments). -/
def fargOfLitArg : NArg → FArg
  | .lit v => .lit v
  | .arr xs => .arr (felemsOfLit xs)
  | _ => .lit .null

/-- The flat argument mapping a literal-only nested argument mapping
flattens to (identity on the literals). -/
def fargsOfLit : NArgs → FArgs
  | .nil => .nil
  | .cons name v rest => .cons name (fargOfLitArg v) (fargsOfLit rest)

/-- Number of entries of a flat graph. -/
def FGraph.size : FGraph → Nat
  | .nil => 0
  | .cons _ _ rest => rest.size + 1

-- ===================================================================
-- Theorems
-- ===================================================================

theorem cget_cset (cs : List (String × Nat)) (p q : String) (n : Nat) :
    cget (cset cs p n) q = if p = q then n else cget cs q := by
  induction cs with
  | nil =>
      by_cases h : p = q <;> simp [cset, cget, h]
  | cons kv rest ih =>
      obtain ⟨k, v⟩ := kv
      by_cases hkp : k = p
      · subst hkp
        by_cases hkq : k = q <;> simp [cset, cget, hkq]
      · by_cases hkq : k = q
        · subst hkq
          have hpq : ¬ p = k := fun h => hkp h.symm
          simp [cset, cget, hkp, hpq]
        · simp [cset, cget, hkp, hkq, ih]

theorem decDigits_lt (n : Nat) (h : n < 10) : decDigits n = [Nat.digitChar n] := by
  rw [decDigits]
  simp [h]

theorem decDigits_ge (n : Nat) (h : ¬ n < 10) :
    decDigits n = decDigits (n / 10) ++ [Nat.digitChar (n % 10)] := by
  rw [decDigits]
  simp [h]

theorem toDigitsCore_eq_decDigits (fuel : Nat) :
    ∀ (n : Nat) (ds : List Char), n < fuel →
      Nat.toDigitsCore 10 fuel n ds = decDigits n ++ ds := by
  induction fuel with
  | zero => intro n ds h; omega
  | succ f ih =>
      intro n ds h
      by_cases h10 : n / 10 = 0
      · have hn : n < 10 := by omega
        simp [Nat.toDigitsCore, h10, decDigits_lt n hn, Nat.mod_eq_of_lt hn]
      · have hf : n / 10 < f := by omega
        simp only [Nat.toDigitsCore, h10, if_false]
        rw [ih (n / 10) _ hf, decDigits_ge n (by omega)]
        simp

theorem digitVal_digitChar (d : Nat) (h : d < 10) :
    digitVal (Nat.digitChar d) = d := by
  interval_cases d <;> rfl

theorem foldl_decDigits (n : Nat) :
    ∀ a, List.foldl (fun a c => 10 * a + digitVal c) a (decDigits n) =
      a * 10 ^ (decDigits n).length + n := by
  induction n using Nat.strong_induction_on with
  | _ n ih =>
      intro a
      by_cases h : n < 10
      · simp [decDigits_lt n h, digitVal_digitChar n h]
        omega
      · have hlt : n / 10 < n := Nat.div_lt_self (by omega) (by omega)
        rw [decDigits_ge n h]
        rw [List.foldl_append, ih (n / 10) hlt a]
        have hmod : digitVal (Nat.digitChar (n % 10)) = n % 10 :=
          digitVal_digitChar _ (Nat.mod_lt n (by omega))
        simp only [List.foldl_cons, List.foldl_nil, hmod, List.length_append,
          List.length_cons, List.length_nil]
        have hpow : 10 ^ ((decDigits (n / 10)).length + (0 + 1)) =
            10 ^ (decDigits (n / 10)).length * 10 := by
          rw [Nat.add_comm 0 1, pow_succ]
        rw [hpow]
        have := Nat.div_add_mod n 10
        ring_nf
        omega

theorem parseDigits_decDigits (n : Nat) : parseDigits (decDigits n) = n := by
  have := foldl_decDigits n 0
  simpa [parseDigits] using this

theorem decDigits_inj {m n : Nat} (h : decDigits m = decDigits n) : m = n := by
  have h2 : parseDigits (decDigits m) = parseDigits (decDigits n) := by rw [h]
  rwa [parseDigits_decDigits, parseDigits_decDigits] at h2

theorem natRepr_inj {m n : Nat} (h : Nat.repr m = Nat.repr n) : m = n := by
  have hm : Nat.toDigits 10 m = decDigits m := by
    have := toDigitsCore_eq_decDigits (m + 1) m [] (by omega)
    simpa [Nat.toDigits] using this
  have hn : Nat.toDigits 10 n = decDigits n := by
    have := toDigitsCore_eq_decDigits (n + 1) n [] (by omega)
    simpa [Nat.toDigits] using this
  have hdig : Nat.toDigits 10 m = Nat.toDigits 10 n := by
    have := congrArg String.data h
    simpa [Nat.repr, List.asString] using this
  exact decDigits_inj (hm ▸ hn ▸ hdig)

theorem natToString_inj {m n : Nat} (h : (toString m : String) = toString n) :
    m = n :=
  natRepr_inj h

theorem string_append_cancel_left {a b c : String} (h : a ++ b = a ++ c) :
    b = c := by
  have h2 : (a ++ b).data = (a ++ c).data := by rw [h]
  rw [String.data_append, String.data_append] at h2
  exact String.ext (List.append_cancel_left h2)

theorem cget_generate (g : KeyGen) (p q : String) :
    cget ((g.generate p).2).counters q =
      if p = q then cget g.counters p + 1 else cget g.counters q := by
  simp [KeyGen.generate, cget_cset]

theorem cget_genGen_ge (ps : List String) :
    ∀ (g : KeyGen) (p : String),
      cget g.counters p ≤ cget (genGen g ps).counters p := by
  induction ps with
  | nil => intro g p; simp [genGen]
  | cons q rest ih =>
      intro g p
      have h1 : cget g.counters p ≤ cget ((g.generate q).2).counters p := by
        rw [cget_generate]
        by_cases h : q = p <;> simp [h]
      calc cget g.counters p ≤ cget ((g.generate q).2).counters p := h1
        _ ≤ cget (genGen (g.generate q).2 rest).counters p := ih _ p

/-- Claim C1 counterexample: two successive `generate` calls on one fresh
`FlatGraphKeyGenerator` instance, with process ids `"a_b"` and `"ab"`,
both return the key `"ab1"` — the per-id counters are keyed by the original
process id while the returned key uses the underscore-stripped id, so the
two ids collide after stripping.  This falsifies "no two calls on the same
instance ever return an equal key". -/
theorem C1_keygen_counterexample :
    ((KeyGen.mk []).generate "a_b").1 =
      ((((KeyGen.mk []).generate "a_b").2).generate "ab").1 := by
  decide

/-- Claim C1 (amended): on a single generator instance, no two `generate`
calls **with the same process id** ever return an equal key — in whatever
state the generator starts and whatever other calls happen before or
between the two calls.  (Calls with *different* process ids can collide,
e.g. `"a_b"` and `"ab"` both yield `"ab1"`, so pairwise distinctness of
all keys emitted during a flatten holds only per process id.) -/
theorem C1_generate_same_pid_distinct (g : KeyGen) (xs ys : List String)
    (p : String) :
    ((genGen g xs).generate p).1 ≠
      ((genGen ((genGen g xs).generate p).2 ys).generate p).1 := by
  intro heq
  set g1 := genGen g xs with hg1
  set g2 := (g1.generate p).2 with hg2
  set g3 := genGen g2 ys with hg3
  have hk1 : (g1.generate p).1 =
      stripUnderscores p ++ toString (cget g1.counters p + 1) := rfl
  have hk2 : (g3.generate p).1 =
      stripUnderscores p ++ toString (cget g3.counters p + 1) := rfl
  rw [hk1, hk2] at heq
  have hc : cget g1.counters p + 1 = cget g3.counters p + 1 :=
    natToString_inj (string_append_cancel_left heq)
  have hstep : cget g2.counters p = cget g1.counters p + 1 := by
    rw [hg2, cget_generate]
    simp
  have hge : cget g2.counters p ≤ cget g3.counters p := by
    rw [hg3]
    exact cget_genGen_ge ys g2 p
  omega

theorem mem_keys_upsert_self : ∀ (g : FGraph) (k : String) (v : FNode),
    k ∈ (g.upsert k v).keys
  | .nil, k, v => by simp [FGraph.upsert, FGraph.keys]
  | .cons k' v' rest, k, v => by
      by_cases h : k' = k
      · simp [FGraph.upsert, h, FGraph.keys]
      · simp [FGraph.upsert, h, FGraph.keys]
        exact Or.inr (mem_keys_upsert_self rest k v)

theorem allFalse_upsert : ∀ (g : FGraph) (k : String) (v : FNode),
    g.allFalse → v.resultFlag = false → (g.upsert k v).allFalse
  | .nil, k, v, _hg, hv => by
      simpa [FGraph.upsert, FGraph.allFalse] using hv
  | .cons k' v' rest, k, v, hg, hv => by
      obtain ⟨h1, h2⟩ := hg
      by_cases h : k' = k
      · simp [FGraph.upsert, h, FGraph.allFalse]
        exact ⟨hv, h2⟩
      · simp [FGraph.upsert, h, FGraph.allFalse]
        exact ⟨h1, allFalse_upsert rest k v h2 hv⟩

theorem allFalse_resultKeys_nil : ∀ (g : FGraph),
    g.allFalse → g.resultKeys = []
  | .nil, _h => rfl
  | .cons k n rest, h => by
      obtain ⟨h1, h2⟩ := h
      simp [FGraph.resultKeys, h1, allFalse_resultKeys_nil rest h2]

theorem setResultAt_resultKeys : ∀ (g : FGraph) (k : String),
    g.allFalse → k ∈ g.keys → (g.setResultAt k).resultKeys = [k]
  | .nil, k, _hg, hk => by simp [FGraph.keys] at hk
  | .cons k' n rest, k, hg, hk => by
      obtain ⟨n1, n2, n3⟩ := n
      obtain ⟨h1, h2⟩ := hg
      by_cases h : k' = k
      · subst h
        simp [FGraph.setResultAt, FGraph.resultKeys, FNode.resultFlag,
          allFalse_resultKeys_nil rest h2]
      · have hk' : k ∈ rest.keys := by
          simp [FGraph.keys] at hk
          tauto
        simp [FNode.resultFlag] at h1
        simp [FGraph.setResultAt, h, FGraph.resultKeys, FNode.resultFlag,
          h1, setResultAt_resultKeys rest k h2 hk']

theorem flattenNode_last (n : NNode) (st : FState) :
    ∃ k, (flattenNode n st).last = some k := by
  obtain ⟨pid, args, res⟩ := n
  exact ⟨_, rfl⟩

mutual

theorem flattenNode_good : ∀ (n : NNode) (st : FState),
    st.Good → (flattenNode n st).Good
  | .mk pid args _res, st, h => by
      have h2 := flattenArgs_good args st h
      constructor
      · exact allFalse_upsert _ _ _ h2.1 rfl
      · intro k hk
        simp only [flattenNode] at hk
        have : ((flattenArgs args st).2.gen.generate pid).1 = k := by
          simpa using hk
        subst this
        exact mem_keys_upsert_self _ _ _

theorem flattenArgs_good : ∀ (a : NArgs) (st : FState),
    st.Good → ((flattenArgs a st).2).Good
  | .nil, _st, h => h
  | .cons _name v rest, st, h => by
      have h1 := flattenArg_good v st h
      have h2 := flattenArgs_good rest (flattenArg v st).2 h1
      simpa [flattenArgs] using h2

theorem flattenArg_good : ∀ (v : NArg) (st : FState),
    st.Good → ((flattenArg v st).2).Good
  | .lit _v, _st, h => h
  | .fromNode n, st, h => by
      have h1 := flattenNode_good n st h
      simpa [flattenArg] using h1
  | .callback cn, st, h => by
      simpa [flattenArg, FState.Good] using h
  | .arr xs, st, h => by
      have h1 := flattenElems_good xs st h
      simpa [flattenArg] using h1

theorem flattenElems_good : ∀ (xs : NElems) (st : FState),
    st.Good → ((flattenElems xs st).2).Good
  | .nil, _st, h => h
  | .cons (.lit _v) rest, st, h => by
      have h1 := flattenElems_good rest st h
      simpa [flattenElems] using h1
  | .cons (.fromNode n) rest, st, h => by
      have h1 := flattenNode_good n st h
      have h2 := flattenElems_good rest (flattenNode n st) h1
      simpa [flattenElems] using h2

end

/-- Claim C3: for every nested graph (always non-empty: it is rooted in a
node) and every starting generator state, the flat map produced by a
flatten run has exactly one entry whose result marker is set, and that
entry's key is the key assigned to the last node visited by the post-order
traversal (the outermost root). -/
theorem C3_single_result_marker (root : NNode) (kg : KeyGen) :
    ((flattenGraph root kg).1).resultKeys = [flattenLast root kg] := by
  have hini : (FState.mk kg .nil none).Good := by
    constructor
    · trivial
    · intro k hk
      simp at hk
  have hgood := flattenNode_good root _ hini
  obtain ⟨k, hk⟩ := flattenNode_last root (FState.mk kg .nil none)
  simp only [flattenGraph, flattenLast, hk, Option.getD_some]
  exact setResultAt_resultKeys _ k hgood.1 (hgood.2 k hk)

/-- Claim C4: on a builder that already holds a root node, `process` (and
hence `add_process`) rewrites the argument entry that references "the
current result" — the builder's convention is the top-level argument named
`'from_node'` — to wrap the builder's current root node, before the newly
built node replaces it as root: each call's result becomes input to the
next call.  All other argument entries are passed through unchanged
(`setName` touches only the `'from_node'` entry). -/
theorem C4_process_chains_current_root (b : GraphBuilder) (r : NNode)
    (process_id : String) (args : NArgs)
    (hroot : b.result_node = some r)
    (hfn : args.hasName "from_node" = true) :
    b.process process_id args =
      .ok ⟨some (.mk process_id
        (args.setName "from_node" (.fromNode r)) none)⟩ := by
  simp [GraphBuilder.process, hfn, hroot]

/-- Witness for C4: a builder rooted in a `"load_collection"` node chains
it into the `'from_node'` argument of a subsequent `"filter_bands"` call. -/
theorem C4_process_chains_current_root_witness :
    GraphBuilder.process ⟨some (.mk "load_collection" .nil none)⟩
        "filter_bands" (.cons "from_node" (.lit .null) .nil) =
      .ok ⟨some (.mk "filter_bands"
        ((NArgs.cons "from_node" (.lit .null) .nil).setName "from_node"
          (.fromNode (.mk "load_collection" .nil none))) none)⟩ :=
  C4_process_chains_current_root _ _ _ _ rfl rfl

/-- Claim C10: whenever `add_process(process_id, result=r, **args)`
succeeds, the new root node's `'result'` entry is exactly `r`: it is
written for every non-`None` `r` — in particular `result=False` stores
`False` rather than omitting the marker — and only `r=None` leaves the
node without a `'result'` entry. -/
theorem C10_add_process_result_entry (b : GraphBuilder) (process_id : String)
    (r : Option Lit) (args : NArgs) (b' : GraphBuilder)
    (h : b.add_process process_id r args = .ok b') :
    ∃ n, b'.result_node = some n ∧ n.resultEntry = r := by
  unfold GraphBuilder.add_process GraphBuilder.process at h
  by_cases hfn : args.hasName "from_node"
  · cases hr : b.result_node with
    | none => simp [hfn, hr, Except.map] at h
    | some root =>
        cases r with
        | none =>
            simp [hfn, hr, Except.map] at h
            subst h
            exact ⟨_, rfl, rfl⟩
        | some v =>
            simp [hfn, hr, GraphBuilder.setRootResult, Except.map] at h
            subst h
            exact ⟨_, rfl, rfl⟩
  · cases r with
    | none =>
        simp [hfn, Except.map] at h
        subst h
        exact ⟨_, rfl, rfl⟩
    | some v =>
        simp [hfn, GraphBuilder.setRootResult, Except.map] at h
        subst h
        exact ⟨_, rfl, rfl⟩

/-- Witness for C10: `add_process` with `result=False` writes the entry
`'result': False` into the new root node. -/
theorem C10_add_process_result_entry_witness :
    ∃ n, (GraphBuilder.mk
        (some (.mk "f" .nil (some (.bool false))))).result_node = some n ∧
      n.resultEntry = some (.bool false) :=
  C10_add_process_result_entry ⟨none⟩ "f" (some (.bool false)) .nil _ rfl

/-- Claim C6: `flatten` leaves the builder's retained state unchanged (the
traversal mutates only the deep copy taken at graphbuilder.py line 160),
so flattening can be repeated and yields the same flat graph again for the
same generator state; and `shallow_copy` hands out a deep copy of the
retained root, equal in value to the original. -/
theorem C6_flatten_copy_preserve_state (b : GraphBuilder) (kg : KeyGen) :
    (∀ fg b', b.flatten kg = .ok (fg, b') →
      b' = b ∧ b'.flatten kg = .ok (fg, b')) ∧
    (∀ c, b.shallow_copy = .ok c → c.result_node = b.result_node) := by
  constructor
  · intro fg b' h
    cases hr : b.result_node with
    | none => simp [GraphBuilder.flatten, hr] at h
    | some root =>
        simp [GraphBuilder.flatten, hr] at h
        obtain ⟨h1, h2⟩ := h
        subst h2
        refine ⟨rfl, ?_⟩
        simp [GraphBuilder.flatten, hr, h1]
  · intro c h
    cases hr : b.result_node with
    | none => simp [GraphBuilder.shallow_copy, hr] at h
    | some root =>
        simp [GraphBuilder.shallow_copy, hr] at h
        subst h
        simp [hr]

/-- Witness for C6: a concrete single-node builder is returned unchanged
by `flatten`, and re-flattening gives the same flat graph. -/
theorem C6_flatten_copy_preserve_state_witness :
    GraphBuilder.mk (some (.mk "p" .nil none)) =
      GraphBuilder.mk (some (.mk "p" .nil none)) ∧
    GraphBuilder.flatten (GraphBuilder.mk (some (.mk "p" .nil none)))
        (KeyGen.mk []) =
      .ok (FGraph.cons "p1" (.mk "p" .nil true) .nil,
        GraphBuilder.mk (some (.mk "p" .nil none))) :=
  (C6_flatten_copy_preserve_state _ _).1 _ _ rfl

theorem flattenElems_litOnly : ∀ (xs : NElems) (st : FState),
    xs.litOnlyElems = true → flattenElems xs st = (felemsOfLit xs, st)
  | .nil, _st, _h => rfl
  | .cons (.lit v) rest, st, h => by
      simp only [NElems.litOnlyElems] at h
      simp [flattenElems, felemsOfLit, flattenElems_litOnly rest st h]
  | .cons (.fromNode n) rest, _st, h => by
      simp [NElems.litOnlyElems] at h

theorem flattenArg_litOnly : ∀ (v : NArg) (st : FState),
    v.litOnlyArg = true → flattenArg v st = (fargOfLitArg v, st)
  | .lit _v, _st, _h => rfl
  | .fromNode _n, _st, h => by simp [NArg.litOnlyArg] at h
  | .callback _n, _st, h => by simp [NArg.litOnlyArg] at h
  | .arr xs, st, h => by
      simp only [NArg.litOnlyArg] at h
      simp [flattenArg, fargOfLitArg, flattenElems_litOnly xs st h]

theorem flattenArgs_litOnly : ∀ (a : NArgs) (st : FState),
    a.litOnly = true → flattenArgs a st = (fargsOfLit a, st)
  | .nil, _st, _h => rfl
  | .cons name v rest, st, h => by
      simp only [NArgs.litOnly, Bool.and_eq_true] at h
      obtain ⟨h1, h2⟩ := h
      simp [flattenArgs, fargsOfLit, flattenArg_litOnly v st h1,
        flattenArgs_litOnly rest st h2]

/-- Claim C5 (amended): for single-node graphs A and B (literal-only
arguments), `combine("sum", A, B)` builds one `"sum"` node holding the
ordered pair of references embedding A's and B's roots, and — provided the
three generated keys are pairwise distinct — flattening it with a fresh
generator yields exactly three entries: A's node, B's node, and the
`"sum"` node whose single `"data"` argument is the ordered pair of
references to A's and B's keys, with the `"sum"` node (and only it) marked
as result.  (The distinctness proviso is forced: colliding process ids,
e.g. `"a_b"` and `"ab"`, make two keys coincide and the map collapses to
two entries — see the counterexample.) -/
theorem C5_combine_flatten (pa pb : String) (argsA argsB : NArgs)
    (resA resB : Option Lit)
    (hA : argsA.litOnly = true) (hB : argsB.litOnly = true)
    (hAB : ((KeyGen.mk []).generate pa).1 ≠
      ((((KeyGen.mk []).generate pa).2).generate pb).1)
    (hAS : ((KeyGen.mk []).generate pa).1 ≠
      ((((((KeyGen.mk []).generate pa).2).generate pb).2).generate "sum").1)
    (hBS : ((((KeyGen.mk []).generate pa).2).generate pb).1 ≠
      ((((((KeyGen.mk []).generate pa).2).generate pb).2).generate "sum").1) :
    GraphBuilder.combine "sum" ⟨some (.mk pa argsA resA)⟩
        ⟨some (.mk pb argsB resB)⟩ "data" =
      .ok ⟨some (.mk "sum"
        (.cons "data" (.arr (.cons (.fromNode (.mk pa argsA resA))
          (.cons (.fromNode (.mk pb argsB resB)) .nil))) .nil)
        (some (.bool true)))⟩ ∧
    (flattenGraph (.mk "sum"
        (.cons "data" (.arr (.cons (.fromNode (.mk pa argsA resA))
          (.cons (.fromNode (.mk pb argsB resB)) .nil))) .nil)
        (some (.bool true))) (KeyGen.mk [])).1 =
      .cons (((KeyGen.mk []).generate pa).1)
          (.mk pa (fargsOfLit argsA) false)
        (.cons (((((KeyGen.mk []).generate pa).2).generate pb).1)
            (.mk pb (fargsOfLit argsB) false)
          (.cons (((((((KeyGen.mk []).generate pa).2).generate pb).2).generate
                "sum").1)
              (.mk "sum" (.cons "data"
                (.arr (.cons (.ref (((KeyGen.mk []).generate pa).1))
                  (.cons (.ref (((((KeyGen.mk []).generate pa).2).generate
                    pb).1)) .nil))) .nil) true)
            .nil)) := by
  have eA : flattenNode (.mk pa argsA resA)
      { gen := KeyGen.mk [], flat := .nil, last := none } =
      { gen := ((KeyGen.mk []).generate pa).2,
        flat := .cons (((KeyGen.mk []).generate pa).1)
          (.mk pa (fargsOfLit argsA) false) .nil,
        last := some (((KeyGen.mk []).generate pa).1) } := by
    simp [flattenNode, flattenArgs_litOnly argsA _ hA, FGraph.upsert]
  have eB : flattenNode (.mk pb argsB resB)
      { gen := ((KeyGen.mk []).generate pa).2,
        flat := .cons (((KeyGen.mk []).generate pa).1)
          (.mk pa (fargsOfLit argsA) false) .nil,
        last := some (((KeyGen.mk []).generate pa).1) } =
      { gen := ((((KeyGen.mk []).generate pa).2).generate pb).2,
        flat := .cons (((KeyGen.mk []).generate pa).1)
            (.mk pa (fargsOfLit argsA) false)
          (.cons (((((KeyGen.mk []).generate pa).2).generate pb).1)
            (.mk pb (fargsOfLit argsB) false) .nil),
        last := some (((((KeyGen.mk []).generate pa).2).generate pb).1) } := by
    simp [flattenNode, flattenArgs_litOnly argsB _ hB, FGraph.upsert, hAB]
  have eE : flattenElems (.cons (.fromNode (.mk pa argsA resA))
      (.cons (.fromNode (.mk pb argsB resB)) .nil))
      { gen := KeyGen.mk [], flat := .nil, last := none } =
      (.cons (.ref (((KeyGen.mk []).generate pa).1))
        (.cons (.ref (((((KeyGen.mk []).generate pa).2).generate pb).1)) .nil),
       { gen := ((((KeyGen.mk []).generate pa).2).generate pb).2,
         flat := .cons (((KeyGen.mk []).generate pa).1)
             (.mk pa (fargsOfLit argsA) false)
           (.cons (((((KeyGen.mk []).generate pa).2).generate pb).1)
             (.mk pb (fargsOfLit argsB) false) .nil),
         last := some (((((KeyGen.mk []).generate pa).2).generate pb).1) }) := by
    simp only [flattenElems]
    rw [eA, eB]
    simp
  have eArgs : flattenArgs (.cons "data"
      (.arr (.cons (.fromNode (.mk pa argsA resA))
        (.cons (.fromNode (.mk pb argsB resB)) .nil))) .nil)
      { gen := KeyGen.mk [], flat := .nil, last := none } =
      (.cons "data" (.arr (.cons (.ref (((KeyGen.mk []).generate pa).1))
        (.cons (.ref (((((KeyGen.mk []).generate pa).2).generate pb).1))
          .nil))) .nil,
       { gen := ((((KeyGen.mk []).generate pa).2).generate pb).2,
         flat := .cons (((KeyGen.mk []).generate pa).1)
             (.mk pa (fargsOfLit argsA) false)
           (.cons (((((KeyGen.mk []).generate pa).2).generate pb).1)
             (.mk pb (fargsOfLit argsB) false) .nil),
         last := some (((((KeyGen.mk []).generate pa).2).generate pb).1) }) := by
    simp only [flattenArgs, flattenArg]
    rw [eE]
  refine ⟨rfl, ?_⟩
  simp only [flattenGraph, flattenNode]
  rw [eArgs]
  simp [FGraph.upsert, FGraph.setResultAt, hAB, hAS, hBS]

/-- Witness for C5 (amended): concrete single-node graphs with process ids
`"a"` and `"b"` flatten, after `combine("sum", ..)`, to the three-entry
flat graph with keys `"a1"`, `"b1"`, `"sum1"`, where only the `"sum"` node
carries the result marker and its `"data"` argument is the ordered pair of
references `"a1"`, `"b1"`. -/
theorem C5_combine_flatten_witness :
    GraphBuilder.combine "sum" ⟨some (.mk "a" .nil none)⟩
        ⟨some (.mk "b" .nil none)⟩ "data" =
      .ok ⟨some (.mk "sum"
        (.cons "data" (.arr (.cons (.fromNode (.mk "a" .nil none))
          (.cons (.fromNode (.mk "b" .nil none)) .nil))) .nil)
        (some (.bool true)))⟩ ∧
    (flattenGraph (.mk "sum"
        (.cons "data" (.arr (.cons (.fromNode (.mk "a" .nil none))
          (.cons (.fromNode (.mk "b" .nil none)) .nil))) .nil)
        (some (.bool true))) (KeyGen.mk [])).1 =
      .cons "a1" (.mk "a" .nil false)
        (.cons "b1" (.mk "b" .nil false)
          (.cons "sum1" (.mk "sum" (.cons "data"
            (.arr (.cons (.ref "a1") (.cons (.ref "b1") .nil))) .nil) true)
            .nil)) :=
  C5_combine_flatten "a" "b" .nil .nil none none rfl rfl
    (by decide) (by decide) (by decide)

/-- Claim C5 counterexample: for the single-node graphs A = node `"a_b"`
and B = node `"ab"`, flattening `combine("sum", A, B)` yields a flat map
with only **two** entries, not three: both inputs receive the key `"ab1"`
(underscore stripping collides), so B's node overwrites A's.  This
falsifies the claim as stated, which promises exactly three entries for
every pair of single-node graphs. -/
theorem C5_combine_flatten_counterexample :
    NNode.singleNode (.mk "a_b" .nil none) = true ∧
    NNode.singleNode (.mk "ab" .nil none) = true ∧
    GraphBuilder.combine "sum" ⟨some (.mk "a_b" .nil none)⟩
        ⟨some (.mk "ab" .nil none)⟩ "data" =
      .ok ⟨some (.mk "sum"
        (.cons "data" (.arr (.cons (.fromNode (.mk "a_b" .nil none))
          (.cons (.fromNode (.mk "ab" .nil none)) .nil))) .nil)
        (some (.bool true)))⟩ ∧
    ((flattenGraph (.mk "sum"
        (.cons "data" (.arr (.cons (.fromNode (.mk "a_b" .nil none))
          (.cons (.fromNode (.mk "ab" .nil none)) .nil))) .nil)
        (some (.bool true))) (KeyGen.mk [])).1).size = 2 :=
  ⟨rfl, rfl, rfl, rfl⟩

/-- Claim C2 (evaluating the buggy code at a failing input): merging the
flat graph with nodes `"a"` (no arguments) and `"b"` (whose `"data"`
argument references `"a"`) into a fresh builder.  The intended behaviour
(claim / spec 4.2) would record nothing in the key map when keys do not
change, and rewrite references to changed keys to the new key strings.
Instead, because `GraphBuilder.process` ends with `return id`
(graphbuilder.py line 75) — the Python builtin function `id`, never equal
to any key string — the test `id != key` (line 86) always succeeds: the
key map records **every** original key, mapped to the builtin function
value, and the `'from_node'` slot of the `"data"` reference is rewritten
to that function value instead of to a node key. -/
theorem C2_merge_key_map_eval :
    mergeProcesses none
      (.cons "a" (.mk "p" .nil false)
        (.cons "b" (.mk "q" (.cons "data" (.ref "a") .nil) false) .nil)) =
    .ok (some (.mk "q" (.cons "data" (.refDict .builtinId) .nil)),
      [("a", .builtinId), ("b", .builtinId)]) := rfl

/-- Claim C7 counterexample: merging a flat graph whose single node holds
a reference to `"zzz"`, a key that does not exist in the merged source
graph.  The merge returns normally — no unresolvable-key error of any kind
is raised (`_merge_processes` has no failure path for this situation,
graphbuilder.py lines 90-93) — and the dangling reference is silently
passed through unchanged. -/
theorem C7_merge_dangling_counterexample :
    mergeProcesses none
      (.cons "b" (.mk "q" (.cons "data" (.ref "zzz") .nil) false) .nil) =
    .ok (some (.mk "q" (.cons "data" (.refDict (.key "zzz")) .nil)),
      [("b", .builtinId)]) := rfl

/-- Claim C7 (amended): when the merge rewrite pass (`rewriteMArgs`,
applied by `mergeProcesses` to every merged node's arguments) encounters a
node reference whose `'from_node'` key is not in the key map — with the
`return id` bug every source key is in the map, so these are exactly the
references whose target cannot be found in the merged source graph — the
reference is silently left untouched; no error is raised. -/
theorem C7_merge_dangling_ref_untouched :
    ∀ (a : MArgs) (km : List (String × RefTarget)) (name k : String),
      a.lookup name = some (.refDict (.key k)) →
      kmLookup km k = none →
      (rewriteMArgs km a).lookup name = some (.refDict (.key k))
  | .nil, _km, name, _k, hsite, _hmiss => by
      simp [MArgs.lookup] at hsite
  | .cons n v rest, km, name, k, hsite, hmiss => by
      by_cases hn : n = name
      · subst hn
        simp [MArgs.lookup] at hsite
        subst hsite
        simp [rewriteMArgs, MArgs.lookup, rewriteTarget, hmiss]
      · cases v with
        | refDict t =>
            simp [MArgs.lookup, hn] at hsite
            simp [rewriteMArgs, MArgs.lookup, hn]
            exact (by
              simpa [MArgs.lookup, hn] using
                C7_merge_dangling_ref_untouched rest km name k hsite hmiss)
        | arr xs =>
            simp [MArgs.lookup, hn] at hsite
            simp [rewriteMArgs, MArgs.lookup, hn]
            exact (by
              simpa [MArgs.lookup, hn] using
                C7_merge_dangling_ref_untouched rest km name k hsite hmiss)
        | lit w =>
            simp [MArgs.lookup, hn] at hsite
            simp [rewriteMArgs, MArgs.lookup, hn]
            exact (by
              simpa [MArgs.lookup, hn] using
                C7_merge_dangling_ref_untouched rest km name k hsite hmiss)
        | node m =>
            simp [MArgs.lookup, hn] at hsite
            simp [rewriteMArgs, MArgs.lookup, hn]
            exact (by
              simpa [MArgs.lookup, hn] using
                C7_merge_dangling_ref_untouched rest km name k hsite hmiss)
        | callback g =>
            simp [MArgs.lookup, hn] at hsite
            simp [rewriteMArgs, MArgs.lookup, hn]
            exact (by
              simpa [MArgs.lookup, hn] using
                C7_merge_dangling_ref_untouched rest km name k hsite hmiss)

/-- Witness for C7 (amended): with the key map produced by the merge of
the counterexample graph, a reference to the absent key `"zzz"` survives
the rewrite pass unchanged. -/
theorem C7_merge_dangling_ref_untouched_witness :
    (rewriteMArgs [("b", .builtinId)]
        (.cons "data" (.refDict (.key "zzz")) .nil)).lookup "data" =
      some (.refDict (.key "zzz")) :=
  C7_merge_dangling_ref_untouched
    (.cons "data" (.refDict (.key "zzz")) .nil)
    [("b", .builtinId)] "data" "zzz" rfl rfl

theorem dstep_eq_stepSpec (d : DVal) (k : DKey) : dstep d k = stepSpec d k := by
  cases d <;> cases k <;> rfl

theorem deepGetAux_spec (orig : List DKey) :
    ∀ (ks : List DKey) (d : DVal),
      (∀ v, resolveSpec d ks = some v →
        (deepGetAux orig none d ks = .ok v ∧
          ∀ f, deepGetAux orig (some f) d ks = .ok v)) ∧
      (resolveSpec d ks = none →
        ((∃ k, deepGetAux orig none d ks = .error ⟨k, orig⟩) ∧
          ∀ f, deepGetAux orig (some f) d ks = .ok f)) := by
  intro ks
  induction ks with
  | nil =>
      intro d
      constructor
      · intro v hv
        simp only [resolveSpec, Option.some_inj] at hv
        subst hv
        exact ⟨rfl, fun _f => rfl⟩
      · intro h
        simp [resolveSpec] at h
  | cons k rest ih =>
      intro d
      constructor
      · intro v hv
        simp only [resolveSpec] at hv
        cases hs : stepSpec d k with
        | none => rw [hs] at hv; simp at hv
        | some w =>
            rw [hs] at hv
            have hd : dstep d k = some w := by rw [dstep_eq_stepSpec, hs]
            refine ⟨?_, ?_⟩
            · simp only [deepGetAux, hd]
              exact (((ih w).1) v hv).1
            · intro f
              simp only [deepGetAux, hd]
              exact (((ih w).1) v hv).2 f
      · intro h
        simp only [resolveSpec] at h
        cases hs : stepSpec d k with
        | none =>
            have hd : dstep d k = none := by rw [dstep_eq_stepSpec, hs]
            refine ⟨⟨k, ?_⟩, ?_⟩
            · simp [deepGetAux, hd]
            · intro f
              simp [deepGetAux, hd]
        | some w =>
            rw [hs] at h
            have hd : dstep d k = some w := by rw [dstep_eq_stepSpec, hs]
            refine ⟨?_, ?_⟩
            · obtain ⟨k', hk'⟩ := ((ih w).2 h).1
              refine ⟨k', ?_⟩
              simp only [deepGetAux, hd]
              exact hk'
            · intro f
              simp only [deepGetAux, hd]
              exact ((ih w).2 h).2 f

/-- Claim C9: `deep_get(d, *ks)` with no default returns the value reached
by following the path (`resolveSpec`, transcribed from the claim: a step
is present only when the current value is a dict containing the key, or a
list/tuple indexed by an int `i` with `0 <= i < length`, so a negative
index counts as absent), raises `DeepKeyError` — carrying the failing step
and the full requested path — exactly when the path does not resolve, and
returns the supplied default instead of raising when one is given. -/
theorem C9_deep_get_spec (d : DVal) (ks : List DKey) :
    (∀ v, resolveSpec d ks = some v →
      (deep_get d ks none = .ok v ∧ ∀ f, deep_get d ks (some f) = .ok v)) ∧
    (resolveSpec d ks = none →
      ((∃ k, deep_get d ks none = .error ⟨k, ks⟩) ∧
        ∀ f, deep_get d ks (some f) = .ok f)) := by
  have h := deepGetAux_spec ks ks d
  simpa [deep_get] using h

/-- Witness for C9: looking up path `["a", 1]` in `{"a": [1, 2]}` returns
`2` with or without a default; looking up the absent path `["zzz"]` with
default `7` returns `7`. -/
theorem C9_deep_get_spec_witness :
    deep_get (.dict [(.s "a", .list [.int 1, .int 2])]) [.s "a", .i 1]
        none = .ok (.int 2) ∧
    deep_get (.dict [(.s "a", .list [.int 1, .int 2])]) [.s "a", .i 1]
        (some .null) = .ok (.int 2) ∧
    deep_get (.dict [(.s "a", .list [.int 1, .int 2])]) [.s "zzz"]
        (some (.int 7)) = .ok (.int 7) :=
  ⟨((C9_deep_get_spec (.dict [(.s "a", .list [.int 1, .int 2])])
      [.s "a", .i 1]).1 (.int 2) rfl).1,
   ((C9_deep_get_spec (.dict [(.s "a", .list [.int 1, .int 2])])
      [.s "a", .i 1]).1 (.int 2) rfl).2 .null,
   ((C9_deep_get_spec (.dict [(.s "a", .list [.int 1, .int 2])])
      [.s "zzz"]).2 rfl).2 (.int 7)⟩
